import Mathlib

/-!
Verification of the sliding-window gesture pipeline and its versioned,
thread-safe result cache.

The embedding follows the source files:
  src/src/inference_module.cpp  (collect_new_samples, slide_window,
                                 run_inference, inference_task,
                                 inference_get_result, inference_get_category_name)
  src/src/led_module.cpp        (led_control_task)
  src/src/ble_module.cpp        (ble_task)
  src/include/inference_module.h

Floating-point values are embedded as rationals; machine sizes play no
role in the properties treated here.  Code that runs inside a single
lock-guarded critical section is embedded as one atomic step of a state
machine.
-/

namespace GestureNode

/-- The shared producer result as stored in `inference_module.cpp`
(`g_prediction_index`, `g_confidence`). -/
structure InferenceStore where
  prediction_index : Int
  confidence : ℚ
deriving DecidableEq, Repr

/-- Modelled from the spec: the versioned `ClassificationResult` of §3.
`inference_get_result_with_seq` is declared in `include/inference_module.h`
and called by both consumers, but its implementation (the version counter
and its update) is not present under `src/`; the spec (§3, §4.2 step 5,
§4.3) says the commit replaces index and confidence and increments the
version by exactly 1, unconditionally. -/
structure ClassificationResult where
  category_index : Int
  confidence : ℚ
  version : Nat
deriving DecidableEq, Repr

/-- Modelled from the spec: `ResultStore.commit` (§4.3) — replace the
stored value, incrementing `version` by exactly 1 on every commit. -/
def commit (s : ClassificationResult) (i : Int) (c : ℚ) : ClassificationResult :=
  { category_index := i, confidence := c, version := s.version + 1 }

/-- Fold a sequence of commits into the store. -/
def commit_all (s : ClassificationResult) (cmds : List (Int × ℚ)) : ClassificationResult :=
  cmds.foldl (fun t p => commit t p.1 p.2) s

/-- The version values observable by a snapshot taken before the first
commit and after each subsequent commit of the sequence. -/
def observed_versions (s : ClassificationResult) (cmds : List (Int × ℚ)) : List Nat :=
  (cmds.scanl (fun t p => commit t p.1 p.2) s).map (fun t => t.version)

/-- One atomic operation on the result store: a producer commit or a
consumer snapshot.  The mutex in `inference_module.cpp` makes each of
these a single indivisible critical section. -/
inductive StoreOp where
  | commitOp (i : Int) (c : ℚ)
  | snapshotOp
deriving DecidableEq, Repr

/-- Run an interleaving of commits and snapshots against the store,
returning the list of triples returned by the snapshots, in order. -/
def run_ops : ClassificationResult → List StoreOp → List ClassificationResult
  | _, [] => []
  | s, StoreOp.commitOp i c :: rest => run_ops (commit s i c) rest
  | s, StoreOp.snapshotOp :: rest => s :: run_ops s rest

/-- The store values actually committed during an interleaving. -/
def committed_results : ClassificationResult → List StoreOp → List ClassificationResult
  | _, [] => []
  | s, StoreOp.commitOp i c :: rest => commit s i c :: committed_results (commit s i c) rest
  | s, StoreOp.snapshotOp :: rest => committed_results s rest

/-- `slide_window` from `inference_module.cpp` lines 55-62: `memmove`
the last `frame_size - new_data_size` entries to the front, then
`memcpy` the new data at the tail. -/
def slide_window (frame_size : Nat) (buf : List ℚ) (new_data : List ℚ) : List ℚ :=
  (buf.drop new_data.length).take (frame_size - new_data.length) ++ new_data

/-- `SLIDING_WINDOW_STEP` from `inference_module.cpp` line 22. -/
def SLIDING_WINDOW_STEP : Nat := 6

/-- The arg-max loop of `run_inference` (`inference_module.cpp` lines
94-102): accumulator starts at `max_confidence = 0`, `max_index = -1`,
and an entry replaces the accumulator only when strictly greater. -/
def argmax_loop : List ℚ → Nat → Int → ℚ → Int × ℚ
  | [], _, best_index, best_conf => (best_index, best_conf)
  | s :: rest, i, best_index, best_conf =>
    if best_conf < s then argmax_loop rest (i + 1) (i : Int) s
    else argmax_loop rest (i + 1) best_index best_conf

/-- Arg-max over the per-category scores, as computed by `run_inference`. -/
def ei_argmax (scores : List ℚ) : Int × ℚ :=
  argmax_loop scores 0 (-1) 0

/-- `run_inference` (`inference_module.cpp` lines 71-111).  The external
classifier outcome is an input: `signal_err` is the return code of
`numpy::signal_from_buffer`, `classifier_out` is either the error code of
`run_classifier` or the per-category scores.  On any failure the function
returns `false` and leaves the store untouched; on success it commits the
arg-max index and confidence under the lock. -/
def run_inference (signal_err : Int) (classifier_out : Except Int (List ℚ))
    (s : InferenceStore) : Bool × InferenceStore :=
  if signal_err ≠ 0 then (false, s)
  else
    match classifier_out with
    | Except.error _ => (false, s)
    | Except.ok scores =>
      let r := ei_argmax scores
      (true, { prediction_index := r.1, confidence := r.2 })

/-- One iteration of the steady-state loop of `inference_task`
(`inference_module.cpp` lines 144-160): slide the window with the newly
collected samples, then run inference; on inference failure the loop
`continue`s to the next cycle, leaving the store as it was. -/
def inference_cycle (frame_size : Nat) (new_samples : List ℚ) (signal_err : Int)
    (classifier_out : Except Int (List ℚ)) (window : List ℚ) (s : InferenceStore) :
    List ℚ × InferenceStore :=
  let w := slide_window frame_size window new_samples
  ((w), (run_inference signal_err classifier_out s).2)

/-- The write trace of the collection loop of `collect_new_samples`
(`inference_module.cpp` lines 33-48).  `stream j` is the j-th successful
accelerometer reading (polls that find no sample available write nothing
and are invisible in the buffer).  Each element of the result is a
(buffer position, value) write, in program order. -/
def collect_loop (stream : Nat → ℚ × ℚ × ℚ) (k collected num : Nat) : List (Nat × ℚ) :=
  if collected < num then
    (collected, (stream k).1) :: (collected + 1, (stream k).2.1) ::
      (collected + 2, (stream k).2.2) ::
      collect_loop stream (k + 1) (collected + 3) num
  else []
termination_by num - collected
decreasing_by omega

/-- `collect_new_samples buffer num_samples` as a write trace. -/
def collect_new_samples (stream : Nat → ℚ × ℚ × ℚ) (num_samples : Nat) : List (Nat × ℚ) :=
  collect_loop stream 0 0 num_samples

/-- The three writes of the j-th accepted reading: one whole (x, y, z)
triple at consecutive positions. -/
def tripleWrites (stream : Nat → ℚ × ℚ × ℚ) (k c : Nat) (j : Nat) : List (Nat × ℚ) :=
  [(c + 3 * j, (stream (k + j)).1), (c + 3 * j + 1, (stream (k + j)).2.1),
   (c + 3 * j + 2, (stream (k + j)).2.2)]

/-- `inference_get_category_name` (`inference_module.cpp` lines 185-190):
bounds-checked lookup in the external category table, `"unknown"` for an
out-of-range index.  The table itself
(`ei_classifier_inferencing_categories`) is external and passed as a
parameter. -/
def inference_get_category_name (categories : List String) (index : Int) : String :=
  if 0 ≤ index ∧ index < (categories.length : Int) then
    categories.getD index.toNat "unknown"
  else "unknown"

/-- The confidence/validity gate of `led_control_task`
(`led_module.cpp` line 45): `confidence > 0.65f && prediction_index != -1`. -/
def led_should_act (index : Int) (conf : ℚ) : Bool :=
  decide ((65 : ℚ) / 100 < conf) && decide (index ≠ -1)

/-- `kMinConfidenceToTransmit` from `ble_module.cpp` line 19. -/
def kMinConfidenceToTransmit : ℚ := 55 / 100

/-- `has_new_payload` from `ble_module.cpp` lines 63-66:
`(sequence != 0) && (sequence != last_published_sequence) &&
(prediction_index != -1) && (confidence >= kMinConfidenceToTransmit)`. -/
def has_new_payload (seq last : Nat) (index : Int) (conf : ℚ) : Bool :=
  decide (seq ≠ 0) && decide (seq ≠ last) && decide (index ≠ -1) &&
    decide (kMinConfidenceToTransmit ≤ conf)

/-- A GPIO level; the RGB LED of the board is active low, so OFF = high
and ON = low. -/
inductive LedLevel where
  | high
  | low
deriving DecidableEq, Repr

/-- An observable action of the indicator task. -/
inductive LedAction where
  | setColor (r g b : LedLevel)
  | sleepMs (ms : Nat)
deriving DecidableEq, Repr

/-- One iteration of the loop body of `led_control_task`
(`led_module.cpp` lines 30-69), as a function of the snapshot returned by
`inference_get_result_with_seq` and of the private `last_sequence`.
Returns the emitted actions and the updated `last_sequence`. -/
def led_iteration (categories : List String) (snap : Int × ℚ × Nat)
    (last_sequence : Nat) : List LedAction × Nat :=
  let i := snap.1
  let c := snap.2.1
  let seq := snap.2.2
  if seq = last_sequence then ([LedAction.sleepMs 100], last_sequence)
  else
    let acts :=
      if led_should_act i c then
        let prediction := inference_get_category_name categories i
        if prediction ≠ "idle" ∧ prediction ≠ "unknown" then
          let colorActs :=
            if prediction = "up" then [LedAction.setColor .high .low .high]
            else if prediction = "down" then [LedAction.setColor .low .low .high]
            else if prediction = "right" then [LedAction.setColor .low .high .low]
            else if prediction = "left" then [LedAction.setColor .high .high .low]
            else []
          colorActs ++ [LedAction.sleepMs 500, LedAction.setColor .high .high .high]
        else if prediction = "idle" then [LedAction.setColor .low .high .high]
        else [LedAction.setColor .high .high .high]
      else [LedAction.setColor .high .high .high]
    (acts ++ [LedAction.sleepMs 100], seq)

/-- Private state of `ble_task`: whether a central is connected (the
inner `while (central.connected())` loop is active) and the private
`last_published_sequence`. -/
structure BleState where
  connected : Bool
  last_published_sequence : Nat
deriving DecidableEq, Repr

/-- Environment events driving `ble_task`: a central appearing, one
inner-loop poll (carrying the snapshot read from the store), or a
disconnect. -/
inductive BleEvent where
  | connectEv
  | pollEv (index : Int) (conf : ℚ) (seq : Nat)
  | disconnectEv
deriving DecidableEq, Repr

/-- An observable action of the wireless task. -/
inductive BleAction where
  | publish (label : String) (conf : ℚ)
  | advertise
  | sleepMs (ms : Nat)
deriving DecidableEq, Repr

/-- One step of `ble_task` (`ble_module.cpp` lines 45-92).  On connect,
`last_published_sequence` is reset to 0 (line 53, forcing the first
payload of the connection).  A poll while connected snapshots the store
and publishes exactly when `has_new_payload` holds; a poll while no
central is connected only polls the radio and sleeps — no snapshot is
taken and nothing is published.  On disconnect the device re-advertises. -/
def ble_step (categories : List String) (s : BleState) (e : BleEvent) :
    BleState × List BleAction :=
  match e with
  | BleEvent.connectEv =>
    if s.connected then (s, [])
    else ({ connected := true, last_published_sequence := 0 }, [])
  | BleEvent.pollEv index conf seq =>
    if s.connected then
      if has_new_payload seq s.last_published_sequence index conf then
        ({ s with last_published_sequence := seq },
         [BleAction.publish (inference_get_category_name categories index) conf,
          BleAction.sleepMs 100])
      else (s, [BleAction.sleepMs 100])
    else (s, [BleAction.sleepMs 100])
  | BleEvent.disconnectEv =>
    ({ s with connected := false }, [BleAction.advertise, BleAction.sleepMs 100])

/-- Claim C1: every commit increments the stored version by exactly 1,
unconditionally, so over any sequence of commits the versions observable
via snapshot are `s.version, s.version + 1, ...` — strictly increasing,
no repeats, no gaps greater than 1 per commit. -/
theorem commit_version_unconditional :
    (∀ (s : ClassificationResult) (i : Int) (c : ℚ),
      (commit s i c).version = s.version + 1)
    ∧ (∀ (s : ClassificationResult) (cmds : List (Int × ℚ)),
      observed_versions s cmds
        = (List.range (cmds.length + 1)).map (fun k => s.version + k)) := by
  constructor
  · intro s i c; rfl
  · intro s cmds
    induction cmds generalizing s with
    | nil => simp [observed_versions, List.range_succ]
    | cons p t ih =>
      have h1 : observed_versions s (p :: t)
          = s.version :: observed_versions (commit s p.1 p.2) t := by
        simp [observed_versions, List.scanl_cons]
      have h2 : (List.range (t.length + 1 + 1)).map (fun k => s.version + k)
          = s.version :: (List.range (t.length + 1)).map (fun k => s.version + 1 + k) := by
        rw [List.range_succ_eq_map]
        simp only [List.map_cons, List.map_map, Nat.add_zero]
        congr 1
        apply List.map_congr_left
        intro a _
        simp [Function.comp]
        omega
      rw [List.length_cons, h2, h1, ih]
      simp [commit]

/-- Claim C3: sliding preserves the buffer length, keeps the previous
buffer's last `frame_size - step` entries at the front, puts the pushed
values at the tail; the 12/6 scenario from the spec is included. -/
theorem slide_window_spec (frame_size step : Nat) (buf new_data : List ℚ)
    (hb : buf.length = frame_size) (hn : new_data.length = step)
    (hs : step < frame_size) :
    (slide_window frame_size buf new_data).length = frame_size
    ∧ (slide_window frame_size buf new_data).take (frame_size - step) = buf.drop step
    ∧ (slide_window frame_size buf new_data).drop (frame_size - step) = new_data
    ∧ slide_window 12 [0, 0, 0, 0, 0, 0, 0, 0, 0, 0, 0, 0] [1, 2, 3, 4, 5, 6]
        = [0, 0, 0, 0, 0, 0, 1, 2, 3, 4, 5, 6] := by
  have hlen : (buf.drop step).length = frame_size - step := by simp [hb]
  have hkey : slide_window frame_size buf new_data = buf.drop step ++ new_data := by
    unfold slide_window
    rw [hn, ← hlen, List.take_length]
  refine ⟨?_, ?_, ?_, by decide⟩
  · rw [hkey]
    simp [hlen, hn]
    omega
  · rw [hkey, ← hlen, List.take_left]
  · rw [hkey, ← hlen, List.drop_left]

/-- Claim C3 witness: the spec scenario instantiates the theorem. -/
theorem slide_window_spec_witness :
    (slide_window 12 [0, 0, 0, 0, 0, 0, 0, 0, 0, 0, 0, 0] [1, 2, 3, 4, 5, 6]).length
      = 12 :=
  (slide_window_spec 12 6 [0, 0, 0, 0, 0, 0, 0, 0, 0, 0, 0, 0] [1, 2, 3, 4, 5, 6]
    (by decide) (by decide) (by decide)).1

/-- Claim C2 counterexample: the indicator gate at `led_module.cpp`
line 45 is strict (`confidence > 0.65f`), so a result whose confidence is
exactly the 0.65 threshold, with a valid index, does NOT pass the gate,
contrary to the claim. -/
theorem led_gate_at_threshold_fails :
    led_should_act 0 ((65 : ℚ) / 100) = false := by
  simp [led_should_act]

/-- Claim C2 (amended): the wireless publisher's gate passes at
confidence exactly 0.55 (it uses >=), while the indicator's gate is
strict (>): confidence exactly 0.65 fails it and only strictly greater
confidence passes; strictly below threshold fails both gates. -/
theorem gates_boundary (i : Int) (c : ℚ) (hi : i ≠ -1) :
    (led_should_act i c = true ↔ (65 : ℚ) / 100 < c)
    ∧ (∀ seq last : Nat, seq ≠ 0 → seq ≠ last →
        (has_new_payload seq last i c = true ↔ (55 : ℚ) / 100 ≤ c))
    ∧ led_should_act i ((65 : ℚ) / 100) = false
    ∧ (∀ seq last : Nat, seq ≠ 0 → seq ≠ last →
        has_new_payload seq last i ((55 : ℚ) / 100) = true)
    ∧ (c < (55 : ℚ) / 100 → ∀ seq last : Nat, has_new_payload seq last i c = false)
    ∧ (c < (65 : ℚ) / 100 → led_should_act i c = false) := by
  refine ⟨?_, ?_, ?_, ?_, ?_, ?_⟩
  · simp [led_should_act, hi]
  · intro seq last h1 h2
    simp [has_new_payload, kMinConfidenceToTransmit, h1, h2, hi]
  · simp [led_should_act]
  · intro seq last h1 h2
    simp [has_new_payload, kMinConfidenceToTransmit, h1, h2, hi]
  · intro hc seq last
    simp [has_new_payload, kMinConfidenceToTransmit]
    intro _ _ _
    linarith
  · intro hc
    simp [led_should_act]
    intro h
    linarith

/-- Claim C2 witness: the amended theorem evaluated at a concrete index
and confidence. -/
theorem gates_boundary_witness :
    led_should_act 0 ((3 : ℚ) / 4) = true ↔ (65 : ℚ) / 100 < (3 : ℚ) / 4 :=
  (gates_boundary 0 ((3 : ℚ) / 4) (by decide)).1

/-- Claim C6: every triple returned by a snapshot, in any interleaving of
producer commits and consumer snapshots (each a single atomic critical
section under the store's one mutex), is either the initial store value
or a value actually committed by some commit of the interleaving — never
a mix of fields of two different commits. -/
theorem snapshot_from_committed (s : ClassificationResult) (ops : List StoreOp) :
    ∀ r ∈ run_ops s ops, r = s ∨ r ∈ committed_results s ops := by
  induction ops generalizing s with
  | nil => intro r hr; simp [run_ops] at hr
  | cons op rest ih =>
    intro r hr
    cases op with
    | commitOp i c =>
      simp only [run_ops] at hr
      simp only [committed_results]
      rcases ih (commit s i c) r hr with h | h
      · exact Or.inr (h ▸ List.mem_cons_self _ _)
      · exact Or.inr (List.mem_cons_of_mem _ h)
    | snapshotOp =>
      simp only [run_ops, List.mem_cons] at hr
      simp only [committed_results]
      rcases hr with h | h
      · exact Or.inl h
      · exact ih s r h

/-- Claim C6 witness: a snapshot taken after one commit returns exactly
that committed triple. -/
theorem snapshot_from_committed_witness :
    (⟨1, 7 / 10, 1⟩ : ClassificationResult) = ⟨-1, 0, 0⟩
    ∨ (⟨1, 7 / 10, 1⟩ : ClassificationResult)
        ∈ committed_results ⟨-1, 0, 0⟩
            [StoreOp.commitOp 1 (7 / 10), StoreOp.snapshotOp] :=
  snapshot_from_committed ⟨-1, 0, 0⟩
    [StoreOp.commitOp 1 (7 / 10), StoreOp.snapshotOp] ⟨1, 7 / 10, 1⟩
    (by simp [run_ops, commit])

/-- The arg-max loop never changes its accumulator when no score exceeds
the current best confidence. -/
theorem argmax_loop_stable (scores : List ℚ) :
    ∀ (i : Nat) (bi : Int) (bc : ℚ), (∀ x ∈ scores, x ≤ bc) →
      argmax_loop scores i bi bc = (bi, bc) := by
  induction scores with
  | nil => intro i bi bc _; rfl
  | cons s rest ih =>
    intro i bi bc h
    have hs : ¬ bc < s := not_lt.mpr (h s (List.mem_cons_self _ _))
    simp only [argmax_loop, if_neg hs]
    exact ih (i + 1) bi bc (fun x hx => h x (List.mem_cons_of_mem _ hx))

/-- The arg-max loop, entered with a best confidence strictly below the
maximum of the list, returns the maximum together with the position of
its first occurrence (offset by the entry index). -/
theorem argmax_loop_finds (scores : List ℚ) :
    ∀ (i : Nat) (bi : Int) (bc m : ℚ), m ∈ scores → (∀ x ∈ scores, x ≤ m) →
      bc < m → argmax_loop scores i bi bc = (((i + scores.indexOf m : Nat) : Int), m) := by
  induction scores with
  | nil => intro i bi bc m hm _ _; exact absurd hm (List.not_mem_nil m)
  | cons s rest ih =>
    intro i bi bc m hm hub hbc
    by_cases hs : s = m
    · subst hs
      rw [List.indexOf_cons_self]
      simp only [argmax_loop, if_pos hbc]
      have hrest : ∀ x ∈ rest, x ≤ s := fun x hx => hub x (List.mem_cons_of_mem _ hx)
      rw [argmax_loop_stable rest (i + 1) (i : Int) s hrest]
      norm_num
    · have hm2 : m ∈ rest := by
        rcases List.mem_cons.mp hm with h | h
        · exact absurd h.symm hs
        · exact h
      have hsm : s < m := lt_of_le_of_ne (hub s (List.mem_cons_self _ _)) hs
      rw [List.indexOf_cons_ne _ hs]
      simp only [argmax_loop]
      by_cases hb2 : bc < s
      · rw [if_pos hb2,
          ih (i + 1) (i : Int) s m hm2 (fun x hx => hub x (List.mem_cons_of_mem _ hx)) hsm]
        congr 1
        push_cast
        ring
      · rw [if_neg hb2,
          ih (i + 1) bi bc m hm2 (fun x hx => hub x (List.mem_cons_of_mem _ hx)) hbc]
        congr 1
        push_cast
        ring

/-- Claim C7 counterexample: on scores `[0, 0]` the maximal score 0 is
shared by categories 0 and 1, yet the loop (strict comparison against an
accumulator starting at 0) keeps the sentinel −1 instead of the lowest
tied index 0. -/
theorem argmax_tie_zero_counterexample :
    ei_argmax [(0 : ℚ), 0] = (-1, 0) := by
  simp [ei_argmax, argmax_loop]

/-- Claim C7 (amended): when the maximal score is strictly positive, the
arg-max selects it, ties broken by the lowest category index (the first
occurrence in scan order), and `run_inference` commits that index with
that score as confidence; when no score is strictly positive the loop
yields the sentinel −1 with confidence 0 instead. -/
theorem argmax_first_max (scores : List ℚ) (m : ℚ) (hmem : m ∈ scores)
    (hub : ∀ x ∈ scores, x ≤ m) (hpos : 0 < m) :
    ei_argmax scores = (((scores.indexOf m : Nat) : Int), m)
    ∧ ∀ s : InferenceStore, run_inference 0 (Except.ok scores) s
        = (true, ⟨((scores.indexOf m : Nat) : Int), m⟩) := by
  have h := argmax_loop_finds scores 0 (-1) 0 m hmem hub hpos
  have h0 : ei_argmax scores = (((scores.indexOf m : Nat) : Int), m) := by
    rw [ei_argmax, h]
    norm_num
  refine ⟨h0, fun s => ?_⟩
  simp [run_inference, h0]

/-- Claim C7 witness: the spec scenario scores {idle 0.2, up 0.7,
down 0.1} give index 1 with confidence 0.7. -/
theorem argmax_first_max_witness :
    ei_argmax [(2 : ℚ) / 10, 7 / 10, 1 / 10] = (1, (7 : ℚ) / 10) := by
  have hidx : ([(2 : ℚ) / 10, 7 / 10, 1 / 10].indexOf ((7 : ℚ) / 10)) = 1 := by
    rw [List.indexOf_cons_ne _ (by norm_num), List.indexOf_cons_self]
  have h := (argmax_first_max [(2 : ℚ) / 10, 7 / 10, 1 / 10] ((7 : ℚ) / 10)
    (by norm_num)
    (by
      intro x hx
      simp only [List.mem_cons, List.not_mem_nil, or_false] at hx
      rcases hx with h | h | h <;> subst h <;> norm_num)
    (by norm_num)).1
  rw [hidx] at h
  exact_mod_cast h

/-- Claim C4 counterexample: with every score equal to 0 the arg-max
yields the −1 sentinel, not a valid category index as the claim states. -/
theorem argmax_all_zero_counterexample :
    ei_argmax [(0 : ℚ), 0, 0, 0, 0] = (-1, 0) := by
  simp [ei_argmax, argmax_loop]

/-- Claim C4 (amended): when the classifier returns all scores at zero,
the arg-max yields the −1 sentinel with confidence 0; this is not an
error — `run_inference` still returns success and commits (−1, 0) — and
both consumer gates filter the committed result, since each requires
`index ≠ -1` (and a positive confidence threshold). -/
theorem argmax_zero_scores (scores : List ℚ) (hz : ∀ x ∈ scores, x = 0) :
    ei_argmax scores = (-1, 0)
    ∧ (∀ s : InferenceStore, run_inference 0 (Except.ok scores) s = (true, ⟨-1, 0⟩))
    ∧ led_should_act (-1) 0 = false
    ∧ (∀ seq last : Nat, has_new_payload seq last (-1) 0 = false) := by
  have h0 : ei_argmax scores = (-1, 0) :=
    argmax_loop_stable scores 0 (-1) 0 (fun x hx => (hz x hx).le)
  refine ⟨h0, fun s => ?_, ?_, fun seq last => ?_⟩
  · simp [run_inference, h0]
  · norm_num [led_should_act]
  · simp [has_new_payload]

/-- Claim C4 witness: the amended theorem at three zero scores. -/
theorem argmax_zero_scores_witness :
    ei_argmax [(0 : ℚ), 0, 0] = (-1, 0) :=
  (argmax_zero_scores [(0 : ℚ), 0, 0]
    (by
      intro x hx
      simp only [List.mem_cons, List.not_mem_nil, or_false] at hx
      rcases hx with h | h | h <;> exact h)).1

/-- Claim C5: when building the signal fails or the classifier returns an
error code, `run_inference` reports failure and leaves the shared store
exactly as it was, and the enclosing `inference_task` cycle likewise
finishes with the store unchanged (the loop just continues). -/
theorem inference_failure_skips (signal_err : Int)
    (classifier_out : Except Int (List ℚ)) (s : InferenceStore)
    (h : signal_err ≠ 0 ∨ ∃ e, classifier_out = Except.error e) :
    run_inference signal_err classifier_out s = (false, s)
    ∧ ∀ (frame_size : Nat) (new_samples window : List ℚ),
        (inference_cycle frame_size new_samples signal_err classifier_out window s).2
          = s := by
  have hmain : run_inference signal_err classifier_out s = (false, s) := by
    rcases h with h | ⟨e, he⟩
    · simp [run_inference, h]
    · subst he
      by_cases h0 : signal_err ≠ 0
      · simp [run_inference, h0]
      · simp [run_inference, h0]
  exact ⟨hmain, fun fs ns w => by simp [inference_cycle, hmain]⟩

/-- Claim C5 witness: a failed signal build leaves a concrete store
untouched. -/
theorem inference_failure_skips_witness :
    run_inference 1 (Except.ok [(1 : ℚ)]) ⟨2, 9 / 10⟩ = (false, ⟨2, 9 / 10⟩) :=
  (inference_failure_skips 1 (Except.ok [(1 : ℚ)]) ⟨2, 9 / 10⟩
    (Or.inl (by decide))).1

/-- Claim C9: a consumer iteration that observes a version equal to its
stored last-seen version performs no action: the indicator iteration
only sleeps its poll interval and keeps its state, and the wireless poll
step publishes nothing, keeps its state, and only sleeps. -/
theorem same_version_no_action (categories : List String) (i : Int) (c : ℚ)
    (seq last : Nat) (h : seq = last) :
    led_iteration categories (i, c, seq) last = ([LedAction.sleepMs 100], last)
    ∧ ble_step categories ⟨true, last⟩ (BleEvent.pollEv i c seq)
        = (⟨true, last⟩, [BleAction.sleepMs 100]) := by
  constructor
  · simp [led_iteration, h]
  · have hp : has_new_payload seq last i c = false := by
      simp [has_new_payload, h]
    simp [ble_step, hp]

/-- Claim C9 witness: the same version observed twice causes no action at
a concrete state. -/
theorem same_version_no_action_witness :
    led_iteration [] (0, 1, 5) 5 = ([LedAction.sleepMs 100], 5) :=
  (same_version_no_action [] 0 1 5 5 rfl).1

/-- Claim C10: while no central is connected a poll step publishes
nothing (it only sleeps); on a new connection `last_published_sequence`
is reset to 0, so the very next poll re-evaluates the current snapshot
and publishes it if it passes the gate, instead of waiting for the next
commit. -/
theorem ble_disconnected_no_publish (categories : List String) (s : BleState)
    (i : Int) (c : ℚ) (seq : Nat) (hconn : s.connected = false) :
    (ble_step categories s (BleEvent.pollEv i c seq)).2 = [BleAction.sleepMs 100]
    ∧ (ble_step categories s BleEvent.connectEv).1.last_published_sequence = 0
    ∧ (seq ≠ 0 → i ≠ -1 → kMinConfidenceToTransmit ≤ c →
        (ble_step categories (ble_step categories s BleEvent.connectEv).1
            (BleEvent.pollEv i c seq)).2
          = [BleAction.publish (inference_get_category_name categories i) c,
             BleAction.sleepMs 100]) := by
  refine ⟨?_, ?_, ?_⟩
  · simp [ble_step, hconn]
  · simp [ble_step, hconn]
  · intro h1 h2 h3
    simp [ble_step, hconn, has_new_payload, h1, h2, h3]

/-- Claim C10 witness: a concrete disconnected state never publishes on
poll, and after a connect the pending result is published immediately. -/
theorem ble_disconnected_no_publish_witness :
    (ble_step ["up"] ⟨false, 7⟩ (BleEvent.pollEv 0 1 3)).2 = [BleAction.sleepMs 100]
    ∧ (ble_step ["up"] (ble_step ["up"] (⟨false, 7⟩ : BleState) BleEvent.connectEv).1
          (BleEvent.pollEv 0 1 3)).2
        = [BleAction.publish (inference_get_category_name ["up"] 0) 1,
           BleAction.sleepMs 100] :=
  ⟨(ble_disconnected_no_publish ["up"] ⟨false, 7⟩ 0 1 3 rfl).1,
   (ble_disconnected_no_publish ["up"] ⟨false, 7⟩ 0 1 3 rfl).2.2
     (by decide) (by decide) (by norm_num [kMinConfidenceToTransmit])⟩

/-- Shifting the triple index by one shifts the reading index by one and
the buffer base by three. -/
theorem tripleWrites_succ (stream : Nat → ℚ × ℚ × ℚ) (k c j : Nat) :
    tripleWrites stream k c (j + 1) = tripleWrites stream (k + 1) (c + 3) j := by
  unfold tripleWrites
  have h1 : c + 3 * (j + 1) = c + 3 + 3 * j := by ring
  have h2 : k + (j + 1) = k + 1 + j := by ring
  rw [h1, h2]

/-- Closed form of the collection loop when the remaining count is a
multiple of three: it writes exactly the whole triples, in order. -/
theorem collect_loop_closed (t : Nat) :
    ∀ (stream : Nat → ℚ × ℚ × ℚ) (k c : Nat),
      collect_loop stream k c (c + 3 * t)
        = ((List.range t).map (tripleWrites stream k c)).flatten := by
  induction t with
  | zero =>
    intro stream k c
    rw [collect_loop.eq_def]
    simp
  | succ t ih =>
    intro stream k c
    rw [collect_loop.eq_def]
    have hc : c < c + 3 * (t + 1) := by omega
    rw [if_pos hc]
    have harg : c + 3 * (t + 1) = c + 3 + 3 * t := by ring
    rw [harg, ih stream (k + 1) (c + 3)]
    rw [List.range_succ_eq_map, List.map_cons, List.flatten_cons, List.map_map]
    have hmap : tripleWrites stream k c ∘ Nat.succ = tripleWrites stream (k + 1) (c + 3) := by
      funext j
      exact tripleWrites_succ stream k c j
    rw [hmap]
    simp [tripleWrites]

/-- The flattened triple writes have length `3 * t`. -/
theorem flatten_triples_length (stream : Nat → ℚ × ℚ × ℚ) (k c : Nat) :
    ∀ t : Nat, (((List.range t).map (tripleWrites stream k c)).flatten).length = 3 * t := by
  intro t
  induction t with
  | zero => simp
  | succ t ih =>
    rw [List.range_succ, List.map_append, List.flatten_append, List.length_append, ih]
    simp [tripleWrites]
    omega

/-- All write positions of the triple form starting at base 0 stay below
`3 * t`. -/
theorem flatten_triples_positions (stream : Nat → ℚ × ℚ × ℚ) (t : Nat) :
    ∀ p ∈ ((((List.range t).map (tripleWrites stream 0 0)).flatten).map Prod.fst),
      p < 3 * t := by
  intro p hp
  simp only [List.mem_map, List.mem_flatten] at hp
  obtain ⟨pair, ⟨l, hl, hpair⟩, rfl⟩ := hp
  obtain ⟨j, hj, rfl⟩ := hl
  rw [List.mem_range] at hj
  simp only [tripleWrites, List.mem_cons, List.not_mem_nil, or_false] at hpair
  rcases hpair with h | h | h <;> subst h <;> simp <;> omega

/-- Claim C8: for a requested count that is a positive multiple of 3 the
collection loop writes exactly the count of values, every write position
within bounds, as whole (x, y, z) triples in arrival order; a count that
is not a multiple of 3 makes the final triple write past the requested
count (positions 4 and 5 for a request of 4). -/
theorem collect_samples_triples (stream : Nat → ℚ × ℚ × ℚ) (num : Nat)
    (h3 : num % 3 = 0) :
    collect_new_samples stream num
      = ((List.range (num / 3)).map (tripleWrites stream 0 0)).flatten
    ∧ (collect_new_samples stream num).length = num
    ∧ (∀ p ∈ (collect_new_samples stream num).map Prod.fst, p < num)
    ∧ ∃ q ∈ (collect_new_samples (fun j => ((j : ℚ), 0, 0)) 4).map Prod.fst,
        4 ≤ q := by
  obtain ⟨t, rfl⟩ : ∃ t, num = 3 * t := ⟨num / 3, by omega⟩
  have hdiv : 3 * t / 3 = t := by omega
  have hmain : collect_new_samples stream (3 * t)
      = ((List.range t).map (tripleWrites stream 0 0)).flatten := by
    rw [collect_new_samples, show 3 * t = 0 + 3 * t by omega]
    exact collect_loop_closed t stream 0 0
  refine ⟨by rw [hdiv]; exact hmain, ?_, ?_, ?_⟩
  · rw [hmain]
    exact flatten_triples_length stream 0 0 t
  · rw [hmain]
    exact flatten_triples_positions stream t
  · refine ⟨5, ?_, by norm_num⟩
    rw [collect_new_samples, collect_loop.eq_def]
    norm_num
    rw [collect_loop.eq_def]
    norm_num

/-- Claim C8 witness: a request of 6 values lands as two whole triples
filling exactly positions 0 through 5. -/
theorem collect_samples_triples_witness :
    (collect_new_samples (fun j => ((j : ℚ), 0, 0)) 6).length = 6 :=
  (collect_samples_triples (fun j => ((j : ℚ), 0, 0)) 6 (by decide)).2.1

end GestureNode
